import Mathlib

/-
Shallow embedding of the XplaneFlightData flight-performance calculators
(compliant variant) and proofs of the specification claims about them.

Floating-point `double` arithmetic is modelled over the reals; machine
integers (`uint32_t`, `uint64_t`) are modelled as naturals with explicit
reduction modulo 2^64 where the C++ arithmetic wraps.
-/

namespace XplaneMfd

open Real

/-! ## Shared constants (xplane_mfd_calc.h) -/

noncomputable def deg_to_rad : ℝ := Real.pi / 180
noncomputable def rad_to_deg : ℝ := 180 / Real.pi
def gravity : ℝ := 9.80665
def kts_to_ms : ℝ := 0.514444
def ft_to_m : ℝ := 0.3048
def m_to_ft : ℝ := 3.28084
def nm_to_ft : ℝ := 6076.12
def angle_wrap : ℝ := 360
def half_circle : ℝ := 180

/-! ## Angle normalization (normalize_angle, identical in
density_altitude_calculator.cpp and flight_calculator.cpp) -/

/-- Truncation toward zero, as used by the C library `fmod`. -/
noncomputable def rtrunc (x : ℝ) : ℤ := if 0 ≤ x then ⌊x⌋ else ⌈x⌉

/-- The C library `fmod x y = x - y * trunc (x / y)`. -/
noncomputable def fmod (x y : ℝ) : ℝ := x - y * (rtrunc (x / y) : ℝ)

/-- Embedding of `normalize_angle`: `fmod` into (-360, 360), then shift
negatives up by one period. -/
noncomputable def normalize_angle (angle : ℝ) : ℝ :=
  let result := fmod angle angle_wrap
  if result < 0 then result + angle_wrap else result

/-! ## Wind resolver (calculate_wind in density_altitude_calculator.cpp,
wind-calculator translation unit) -/

structure WindComponents where
  headwind : ℝ
  crosswind : ℝ
  total_wind : ℝ
  wca : ℝ
  drift : ℝ

/-- Embedding of `calculate_wind`. -/
noncomputable def calculate_wind (track heading wind_dir wind_speed : ℝ) :
    WindComponents :=
  let track0 := normalize_angle track
  let heading0 := normalize_angle heading
  let wind_dir0 := normalize_angle wind_dir
  let drift0 := normalize_angle (track0 - heading0)
  let drift1 := if drift0 > half_circle then drift0 - angle_wrap else drift0
  let wind_from_relative0 := normalize_angle (wind_dir0 - track0)
  let wind_from_relative :=
    if wind_from_relative0 > half_circle then wind_from_relative0 - angle_wrap
    else wind_from_relative0
  let wind_from_rad := wind_from_relative * deg_to_rad
  { headwind := -wind_speed * Real.cos wind_from_rad
    crosswind := wind_speed * Real.sin wind_from_rad
    total_wind := wind_speed
    wca := 0
    drift := drift1 }

/-! ## Turn performance engine (turn_calculator.cpp) -/

def infinite_radius_nm : ℝ := 999.9
def infinite_radius_ft : ℝ := 999900.0
def zero_turn_rate : ℝ := 0
def infinite_time : ℝ := 999.9
def min_tan_threshold : ℝ := 0.001
def min_turn_rate_threshold : ℝ := 0.01
def meters_per_nm : ℝ := 1852
def feet_per_meter : ℝ := 3.28084
def standard_rate : ℝ := 3

structure TurnData where
  radius_nm : ℝ
  radius_ft : ℝ
  turn_rate_dps : ℝ
  lead_distance_nm : ℝ
  lead_distance_ft : ℝ
  time_to_turn_sec : ℝ
  load_factor : ℝ
  standard_rate_bank : ℝ

/-- Embedding of `calculate_turn_performance`. -/
noncomputable def calculate_turn_performance (tas_kts bank_deg course_change_deg : ℝ) :
    TurnData :=
  let v_ms := tas_kts * kts_to_ms
  let phi_rad := bank_deg * deg_to_rad
  let delta_psi_rad := course_change_deg * deg_to_rad
  let load_factor := 1.0 / Real.cos phi_rad
  let tan_phi := Real.tan phi_rad
  let standard_rate_bank := Real.arctan ((standard_rate * deg_to_rad * v_ms) / gravity) * rad_to_deg
  if |tan_phi| < min_tan_threshold then
    { radius_nm := infinite_radius_nm
      radius_ft := infinite_radius_ft
      turn_rate_dps := zero_turn_rate
      lead_distance_nm := zero_turn_rate
      lead_distance_ft := zero_turn_rate
      time_to_turn_sec := infinite_time
      load_factor := load_factor
      standard_rate_bank := standard_rate_bank }
  else
    let radius_m := (v_ms * v_ms) / (gravity * tan_phi)
    let omega_rad_s := (gravity * tan_phi) / v_ms
    let turn_rate_dps := omega_rad_s * rad_to_deg
    let lead_m := radius_m * Real.tan (delta_psi_rad / 2.0)
    { radius_nm := radius_m / meters_per_nm
      radius_ft := radius_m * feet_per_meter
      turn_rate_dps := turn_rate_dps
      lead_distance_nm := lead_m / meters_per_nm
      lead_distance_ft := lead_m * feet_per_meter
      time_to_turn_sec :=
        if |turn_rate_dps| > min_turn_rate_threshold then course_change_deg / turn_rate_dps
        else infinite_time
      load_factor := load_factor
      standard_rate_bank := standard_rate_bank }

/-! ## VNAV geometry engine (vnav_calculator.cpp) -/

noncomputable def three_deg_rad : ℝ := 3 * deg_to_rad
def vs_conversion_factor : ℝ := 101.27
def min_distance_nm : ℝ := 0.01
def min_groundspeed_kts : ℝ := 1
def min_vs_for_time_calc : ℝ := 1
def zero_distance : ℝ := 0
def thousand_feet : ℝ := 1000

structure VNAVData where
  altitude_to_lose_ft : ℝ
  flight_path_angle_deg : ℝ
  required_vs_fpm : ℝ
  tod_distance_nm : ℝ
  time_to_constraint_min : ℝ
  distance_per_1000ft : ℝ
  vs_for_3deg : ℝ
  is_descent : Bool

open Classical in
/-- Embedding of `calculate_vnav`. -/
noncomputable def calculate_vnav (current_alt_ft target_alt_ft distance_nm
    groundspeed_kts current_vs_fpm : ℝ) : VNAVData :=
  let altitude_change_ft := target_alt_ft - current_alt_ft
  let is_descent : Bool := decide (altitude_change_ft < zero_distance)
  let distance_nm1 := if distance_nm < min_distance_nm then min_distance_nm else distance_nm
  let groundspeed_kts1 :=
    if groundspeed_kts < min_groundspeed_kts then min_groundspeed_kts else groundspeed_kts
  let distance_ft := distance_nm1 * nm_to_ft
  let gamma_rad := Real.arctan (altitude_change_ft / distance_ft)
  let abs_alt_change := |altitude_change_ft|
  let vs_3deg_base := vs_conversion_factor * groundspeed_kts1 * Real.tan three_deg_rad
  { altitude_to_lose_ft := -altitude_change_ft
    flight_path_angle_deg := gamma_rad * rad_to_deg
    required_vs_fpm := vs_conversion_factor * groundspeed_kts1 * Real.tan gamma_rad
    tod_distance_nm := abs_alt_change / (nm_to_ft * Real.tan three_deg_rad)
    time_to_constraint_min :=
      if |current_vs_fpm| > min_vs_for_time_calc then altitude_change_ft / current_vs_fpm
      else infinite_time
    distance_per_1000ft :=
      if abs_alt_change > min_vs_for_time_calc then (distance_nm1 * thousand_feet) / abs_alt_change
      else zero_distance
    vs_for_3deg := if is_descent then vs_3deg_base else -vs_3deg_base
    is_descent := is_descent }

/-! ## Density altitude model (density_altitude_calculator.cpp) -/

def sea_level_temp_c : ℝ := 15
def temp_lapse_rate : ℝ := 0.0019812
def kelvin_offset : ℝ := 273.15
def density_alt_factor : ℝ := 120

/-- Embedding of `isa_temperature_c`. -/
def isa_temperature_c (pressure_altitude_ft : ℝ) : ℝ :=
  sea_level_temp_c - (temp_lapse_rate * pressure_altitude_ft)

/-- Embedding of `calculate_density_altitude`. -/
def calculate_density_altitude (pressure_altitude_ft oat_celsius : ℝ) : ℝ :=
  let isa_temp := isa_temperature_c pressure_altitude_ft
  let temp_deviation := oat_celsius - isa_temp
  pressure_altitude_ft + (density_alt_factor * temp_deviation)

/-! ## Sensor history ring buffer (flight_calculator.cpp, SensorHistoryBuffer)

The element type `double` plays no role in the storage logic, so the buffer
is embedded parametrically in the element type. -/

abbrev max_ias_history : ℕ := 20

structure SensorHistoryBuffer (α : Type) where
  data : Fin max_ias_history → α
  head_index : Fin max_ias_history
  current_size : ℕ

/-- Embedding of `SensorHistoryBuffer::add_reading`: write at the head index,
advance the head modulo the capacity, grow the size until full. -/
def add_reading {α : Type} (b : SensorHistoryBuffer α) (new_ias : α) :
    SensorHistoryBuffer α :=
  { data := Function.update b.data b.head_index new_ias
    head_index := b.head_index + 1
    current_size :=
      if b.current_size < max_ias_history then b.current_size + 1 else b.current_size }

/-- Embedding of `SensorHistoryBuffer::get_size`. -/
def get_size {α : Type} (b : SensorHistoryBuffer α) : ℕ := b.current_size

/-- A freshly constructed buffer: size and head are zero, the array contents
are indeterminate in the C++ (`std::array` default-initialized), modelled by
an arbitrary fill value. -/
def initBuffer {α : Type} (fill : α) : SensorHistoryBuffer α :=
  { data := fun _ => fill, head_index := 0, current_size := 0 }

/-- A sequence of `add_reading` calls, oldest first. -/
def addAll {α : Type} (b : SensorHistoryBuffer α) (xs : List α) :
    SensorHistoryBuffer α :=
  xs.foldl add_reading b

/-! ## Binomial coefficient helper (flight_calculator.cpp)

`n` and `k` are `uint32_t` values (naturals below 2^32); `result` is a
`uint64_t`, so the running product wraps modulo 2^64 and the division is
truncating machine division. -/

def u64_mod : ℕ := 2 ^ 64

/-- The running product-division loop of `binomial_coefficient` over
`i = 1, ..., k1` with 64-bit wrapping multiplication and truncating
division. -/
def binom_loop (n k1 : ℕ) : ℕ :=
  (List.range' 1 k1).foldl (fun r i => r * (n - k1 + i) % u64_mod / i) 1

/-- Embedding of `binomial_coefficient`: guard branches, then the iterative
running product-division loop using the smaller of k and n − k. -/
def binomial_coefficient (n k : ℕ) : ℕ :=
  if n < k then 0
  else if k = 0 ∨ k = n then 1
  else if k = 1 then n
  else binom_loop n (if n - k < k then n - k else k)

/-! ## Theorems -/

/-- Claim C6: for every pressure altitude PA and outside air temperature OAT the
density altitude returned equals PA + 120·(OAT − (15 − 0.0019812·PA)); and in
the end-to-end scenario PA = 5000 ft, OAT = 25 °C the ISA temperature is
exactly 5.094 °C (≈ 5.1), the deviation 19.906 °C (≈ 19.9) and the density
altitude 7388.72 ft (≈ 7388). -/
theorem density_altitude_formula_and_scenario :
    (∀ pa oat : ℝ, calculate_density_altitude pa oat
        = pa + 120 * (oat - (15 - 0.0019812 * pa)))
    ∧ isa_temperature_c 5000 = 5.094
    ∧ 25 - isa_temperature_c 5000 = 19.906
    ∧ calculate_density_altitude 5000 25 = 7388.72 := by
  refine ⟨fun pa oat => ?_, ?_, ?_, ?_⟩ <;>
    norm_num [calculate_density_altitude, isa_temperature_c, sea_level_temp_c,
      temp_lapse_rate, density_alt_factor]

/-- Claim C4: for every track, heading, wind direction and wind speed w ≥ 0, the
headwind and crosswind returned by `calculate_wind` satisfy
headwind² + crosswind² = w² exactly over the reals, and total_wind = w. -/
theorem wind_components_pythagorean (track heading wind_dir wind_speed : ℝ)
    (hw : 0 ≤ wind_speed) :
    (calculate_wind track heading wind_dir wind_speed).headwind ^ 2
        + (calculate_wind track heading wind_dir wind_speed).crosswind ^ 2
      = wind_speed ^ 2
    ∧ (calculate_wind track heading wind_dir wind_speed).total_wind = wind_speed := by
  have key : ∀ θ : ℝ, (-wind_speed * Real.cos θ) ^ 2 + (wind_speed * Real.sin θ) ^ 2
      = wind_speed ^ 2 := by
    intro θ
    have h := Real.sin_sq_add_cos_sq θ
    nlinarith [h]
  exact ⟨key _, rfl⟩

/-- Witness for claim C4: the relation instantiated at track 90, heading 85, wind from
270 at 15 kt. -/
theorem wind_components_pythagorean_witness :
    (0:ℝ) ≤ 15
    ∧ (calculate_wind 90 85 270 15).headwind ^ 2
        + (calculate_wind 90 85 270 15).crosswind ^ 2 = 15 ^ 2
    ∧ (calculate_wind 90 85 270 15).total_wind = 15 :=
  ⟨by norm_num, (wind_components_pythagorean 90 85 270 15 (by norm_num)).1,
    (wind_components_pythagorean 90 85 270 15 (by norm_num)).2⟩

/-- Claim C10: for every VNAV input, `altitude_to_lose_ft` equals current minus
target altitude, and `is_descent` is true exactly when the target altitude is
strictly below the current altitude. -/
theorem vnav_altitude_to_lose_and_descent (a t d g v : ℝ) :
    (calculate_vnav a t d g v).altitude_to_lose_ft = a - t
    ∧ ((calculate_vnav a t d g v).is_descent = true ↔ t < a) := by
  constructor
  · show -(t - a) = a - t
    ring
  · show decide (t - a < zero_distance) = true ↔ t < a
    rw [decide_eq_true_iff]
    unfold zero_distance
    constructor <;> intro h <;> linarith

/-- Claim C9: `calculate_vnav` is total: a distance below 0.01 NM is replaced by
0.01 NM and a groundspeed below 1 kt by 1 kt before any division, so the
result on any input equals the result computed from the clamped values, and
the clamped values are bounded away from zero. -/
theorem vnav_clamping_total (a t d g v : ℝ) :
    calculate_vnav a t d g v
      = calculate_vnav a t (if d < min_distance_nm then min_distance_nm else d)
          (if g < min_groundspeed_kts then min_groundspeed_kts else g) v
    ∧ min_distance_nm ≤ (if d < min_distance_nm then min_distance_nm else d)
    ∧ min_groundspeed_kts ≤ (if g < min_groundspeed_kts then min_groundspeed_kts else g)
    ∧ (d < min_distance_nm →
        (if d < min_distance_nm then min_distance_nm else d) = min_distance_nm)
    ∧ (g < min_groundspeed_kts →
        (if g < min_groundspeed_kts then min_groundspeed_kts else g) = min_groundspeed_kts) := by
  have hd : ¬ ((if d < min_distance_nm then min_distance_nm else d) < min_distance_nm) := by
    split
    · exact lt_irrefl _
    · assumption
  have hg : ¬ ((if g < min_groundspeed_kts then min_groundspeed_kts else g)
      < min_groundspeed_kts) := by
    split
    · exact lt_irrefl _
    · assumption
  refine ⟨?_, not_lt.mp hd, not_lt.mp hg, fun h => if_pos h, fun h => if_pos h⟩
  simp only [calculate_vnav, if_neg hd, if_neg hg]

/-- Witness for claim C9: the clamping equality instantiated at a pathological input
with negative distance and zero groundspeed; the clamped distance is the
0.01 NM minimum. -/
theorem vnav_clamping_total_witness :
    calculate_vnav 1000 0 (-5) 0 (-500)
      = calculate_vnav 1000 0
          (if (-5:ℝ) < min_distance_nm then min_distance_nm else (-5))
          (if (0:ℝ) < min_groundspeed_kts then min_groundspeed_kts else 0) (-500)
    ∧ (if (-5:ℝ) < min_distance_nm then min_distance_nm else (-5)) = min_distance_nm
    ∧ (if (0:ℝ) < min_groundspeed_kts then min_groundspeed_kts else 0)
        = min_groundspeed_kts := by
  have h := vnav_clamping_total 1000 0 (-5) 0 (-500)
  exact ⟨h.1, h.2.2.2.1 (by norm_num [min_distance_nm]),
    h.2.2.2.2 (by norm_num [min_groundspeed_kts])⟩

/-- Claim C1: for every true airspeed v > 0 and course change, if the bank angle
satisfies |tan(bank)| < 0.001 then `calculate_turn_performance` returns the
literal sentinel values 999.9 NM, 999900.0 ft, 0.0 deg/s and 999.9 s. -/
theorem turn_sentinels_when_wings_level (v b c : ℝ) (hv : 0 < v)
    (hb : |Real.tan (b * deg_to_rad)| < min_tan_threshold) :
    (calculate_turn_performance v b c).radius_nm = 999.9
    ∧ (calculate_turn_performance v b c).radius_ft = 999900.0
    ∧ (calculate_turn_performance v b c).turn_rate_dps = 0
    ∧ (calculate_turn_performance v b c).time_to_turn_sec = 999.9 := by
  simp only [calculate_turn_performance, if_pos hb]
  exact ⟨rfl, rfl, rfl, rfl⟩

/-- Witness for claim C1: the sentinel behaviour at TAS 1 kt, bank 0°, course change
90°, where tan(0) = 0 is below the threshold. -/
theorem turn_sentinels_when_wings_level_witness :
    (0:ℝ) < 1
    ∧ |Real.tan (0 * deg_to_rad)| < min_tan_threshold
    ∧ (calculate_turn_performance 1 0 90).radius_nm = 999.9
    ∧ (calculate_turn_performance 1 0 90).radius_ft = 999900.0
    ∧ (calculate_turn_performance 1 0 90).turn_rate_dps = 0
    ∧ (calculate_turn_performance 1 0 90).time_to_turn_sec = 999.9 := by
  have h0 : |Real.tan ((0:ℝ) * deg_to_rad)| < min_tan_threshold := by
    rw [zero_mul, Real.tan_zero]
    norm_num [min_tan_threshold]
  obtain ⟨h1, h2, h3, h4⟩ := turn_sentinels_when_wings_level 1 0 90 (by norm_num) h0
  exact ⟨by norm_num, h0, h1, h2, h3, h4⟩

/-- Range helper: the output of `normalize_angle` lies in [0, 360). -/
lemma normalize_angle_mem (a : ℝ) :
    0 ≤ normalize_angle a ∧ normalize_angle a < 360 := by
  simp only [normalize_angle, fmod, rtrunc, angle_wrap]
  set x := a / 360 with hxdef
  have ha : a = 360 * x := by
    rw [hxdef]
    field_simp
  by_cases h : 0 ≤ x
  · rw [if_pos h]
    have h1 : (⌊x⌋ : ℝ) ≤ x := Int.floor_le x
    have h2 : x < ⌊x⌋ + 1 := Int.lt_floor_add_one x
    have hr0 : 0 ≤ a - 360 * (⌊x⌋ : ℝ) := by nlinarith
    have hr1 : a - 360 * (⌊x⌋ : ℝ) < 360 := by nlinarith
    rw [if_neg (by linarith)]
    exact ⟨hr0, hr1⟩
  · rw [if_neg h]
    have h1 : x ≤ (⌈x⌉ : ℝ) := Int.le_ceil x
    have h2 : (⌈x⌉ : ℝ) < x + 1 := Int.ceil_lt_add_one x
    have hr0 : a - 360 * (⌈x⌉ : ℝ) ≤ 0 := by nlinarith
    have hr1 : -360 < a - 360 * (⌈x⌉ : ℝ) := by nlinarith
    by_cases hr : a - 360 * (⌈x⌉ : ℝ) < 0
    · rw [if_pos hr]
      constructor <;> linarith
    · rw [if_neg hr]
      constructor <;> linarith

/-- Congruence helper: `normalize_angle` changes its input by an integer
multiple of 360. -/
lemma normalize_angle_sub_int (a : ℝ) :
    ∃ k : ℤ, normalize_angle a = a - 360 * (k : ℝ) := by
  simp only [normalize_angle, fmod, angle_wrap]
  set n := rtrunc (a / 360) with hn
  by_cases hr : a - 360 * (n : ℝ) < 0
  · rw [if_pos hr]
    refine ⟨n - 1, ?_⟩
    push_cast
    ring
  · rw [if_neg hr]
    exact ⟨n, rfl⟩

/-- Claim C8: for every input angle the output of `normalize_angle` lies in
[0, 360), and for every integer m, `normalize_angle (a + 360·m)` equals
`normalize_angle a`. -/
theorem normalize_angle_range_and_periodic (a : ℝ) (m : ℤ) :
    0 ≤ normalize_angle a ∧ normalize_angle a < 360
    ∧ normalize_angle (a + 360 * (m : ℝ)) = normalize_angle a := by
  obtain ⟨h0, h1⟩ := normalize_angle_mem a
  obtain ⟨h0', h1'⟩ := normalize_angle_mem (a + 360 * (m : ℝ))
  obtain ⟨k, hk⟩ := normalize_angle_sub_int a
  obtain ⟨k', hk'⟩ := normalize_angle_sub_int (a + 360 * (m : ℝ))
  refine ⟨h0, h1, ?_⟩
  have hdiff : normalize_angle (a + 360 * (m : ℝ)) - normalize_angle a
      = 360 * ((m - k' + k : ℤ) : ℝ) := by
    rw [hk, hk']
    push_cast
    ring
  have hj : (m - k' + k : ℤ) = 0 := by
    by_contra hne
    have habs : 1 ≤ |((m - k' + k : ℤ) : ℝ)| := by
      rw [← Int.cast_abs]
      exact_mod_cast Int.one_le_abs hne
    have hlt : |normalize_angle (a + 360 * (m : ℝ)) - normalize_angle a| < 360 := by
      rw [abs_lt]
      constructor <;> linarith
    rw [hdiff, abs_mul] at hlt
    have : |(360 : ℝ)| = 360 := by norm_num
    nlinarith [habs, hlt]
  have : ((m - k' + k : ℤ) : ℝ) = 0 := by
    exact_mod_cast congrArg (fun z : ℤ => (z : ℝ)) hj
  linarith [hdiff, this.symm ▸ hdiff]

/-- Positivity of tan(3°), used for the VNAV sign analysis. -/
lemma tan_three_deg_pos : 0 < Real.tan three_deg_rad := by
  have hpi := Real.pi_pos
  unfold three_deg_rad deg_to_rad
  apply Real.tan_pos_of_pos_of_lt_pi_div_two
  · positivity
  · nlinarith

/-- Claim C3 evaluation: on the climb input (current 0 ft, target 1000 ft,
distance 10 NM, groundspeed 100 kt, vertical speed 0 fpm) the code reports
is_descent = false but returns a strictly negative `vs_for_3deg`, although
the in-code comment and the spec require it to be positive when climbing. -/
theorem vnav_vs_for_3deg_negative_on_climb :
    (calculate_vnav 0 1000 10 100 0).is_descent = false
    ∧ (calculate_vnav 0 1000 10 100 0).vs_for_3deg < 0 := by
  have hdesc : decide ((1000:ℝ) - 0 < zero_distance) = false :=
    decide_eq_false (by norm_num [zero_distance])
  constructor
  · show decide ((1000:ℝ) - 0 < zero_distance) = false
    exact hdesc
  · simp only [calculate_vnav, hdesc, Bool.false_eq_true, if_false]
    rw [if_neg (by norm_num [min_groundspeed_kts])]
    have hpos : 0 < vs_conversion_factor * 100 * Real.tan three_deg_rad := by
      have h1 : (0:ℝ) < vs_conversion_factor * 100 := by norm_num [vs_conversion_factor]
      exact mul_pos h1 tan_three_deg_pos
    linarith

/-- Counterexample for claim C5: at bank −45° the threshold |tan| ≥ 0.001 is met
(tan = −1) and TAS 100 > 0, yet the computed turn radius is strictly
negative, refuting the claim for bank angles outside [0°, 90°]. -/
theorem turn_radius_counterexample :
    (0:ℝ) < 100
    ∧ min_tan_threshold ≤ |Real.tan ((-45) * deg_to_rad)|
    ∧ (calculate_turn_performance 100 (-45) 90).radius_nm < 0 := by
  have hphi : ((-45:ℝ)) * deg_to_rad = -(Real.pi / 4) := by
    unfold deg_to_rad
    ring
  have htan : Real.tan ((-45:ℝ) * deg_to_rad) = -1 := by
    rw [hphi, Real.tan_neg, Real.tan_pi_div_four]
  refine ⟨by norm_num, by rw [htan]; norm_num [min_tan_threshold], ?_⟩
  simp only [calculate_turn_performance, htan]
  rw [if_neg (by norm_num [min_tan_threshold])]
  show 100 * kts_to_ms * (100 * kts_to_ms) / (gravity * (-1)) / meters_per_nm < 0
  norm_num [kts_to_ms, gravity, meters_per_nm]

/-- Claim C5 (amended to the engine's contract domain bank ∈ [0°, 90°]): for every
bank angle b in [0°, 90°] with |tan b| ≥ 0.001 and TAS v > 0, the turn radius
is strictly positive, strictly increasing in v for fixed b, and strictly
decreasing in b for fixed v among bank angles in (0°, 90°). -/
theorem turn_radius_positive_and_monotone (v b c : ℝ) (hv : 0 < v)
    (hb0 : 0 ≤ b) (hb90 : b ≤ 90)
    (hthr : min_tan_threshold ≤ |Real.tan (b * deg_to_rad)|) :
    0 < (calculate_turn_performance v b c).radius_nm
    ∧ (∀ v' : ℝ, v < v' →
        (calculate_turn_performance v b c).radius_nm
          < (calculate_turn_performance v' b c).radius_nm)
    ∧ (∀ b' : ℝ, b < b' → b' < 90 →
        (calculate_turn_performance v b' c).radius_nm
          < (calculate_turn_performance v b c).radius_nm) := by
  have hpi := Real.pi_pos
  have hphi0 : 0 ≤ b * deg_to_rad := by
    unfold deg_to_rad
    positivity
  have hphi2 : b * deg_to_rad ≤ Real.pi / 2 := by
    unfold deg_to_rad
    nlinarith
  have htnn : 0 ≤ Real.tan (b * deg_to_rad) :=
    Real.tan_nonneg_of_nonneg_of_le_pi_div_two hphi0 hphi2
  have ht : min_tan_threshold ≤ Real.tan (b * deg_to_rad) := by
    rwa [abs_of_nonneg htnn] at hthr
  have htpos : 0 < Real.tan (b * deg_to_rad) := by
    have : (0:ℝ) < min_tan_threshold := by norm_num [min_tan_threshold]
    linarith
  have hnot : ¬ (|Real.tan (b * deg_to_rad)| < min_tan_threshold) := not_lt.mpr hthr
  have hkts : (0:ℝ) < kts_to_ms := by norm_num [kts_to_ms]
  have hg : (0:ℝ) < gravity := by norm_num [gravity]
  have hnm : (0:ℝ) < meters_per_nm := by norm_num [meters_per_nm]
  refine ⟨?_, ?_, ?_⟩
  · simp only [calculate_turn_performance]
    rw [if_neg hnot]
    show 0 < v * kts_to_ms * (v * kts_to_ms) / (gravity * Real.tan (b * deg_to_rad)) / meters_per_nm
    positivity
  · intro v' hvv
    simp only [calculate_turn_performance]
    rw [if_neg hnot, if_neg hnot]
    show v * kts_to_ms * (v * kts_to_ms) / (gravity * Real.tan (b * deg_to_rad)) / meters_per_nm
      < v' * kts_to_ms * (v' * kts_to_ms) / (gravity * Real.tan (b * deg_to_rad)) / meters_per_nm
    have hden : (0:ℝ) < gravity * Real.tan (b * deg_to_rad) := by positivity
    have hvk : v * kts_to_ms < v' * kts_to_ms := by nlinarith
    have hnum : v * kts_to_ms * (v * kts_to_ms) < v' * kts_to_ms * (v' * kts_to_ms) :=
      mul_self_lt_mul_self (by positivity) hvk
    gcongr
  · intro b' hbb hb90'
    have hphi0' : 0 ≤ b' * deg_to_rad := by
      unfold deg_to_rad
      nlinarith
    have hphi2' : b' * deg_to_rad < Real.pi / 2 := by
      unfold deg_to_rad
      nlinarith
    have hmono : Real.tan (b * deg_to_rad) < Real.tan (b' * deg_to_rad) := by
      apply Real.tan_lt_tan_of_nonneg_of_lt_pi_div_two hphi0 hphi2'
      unfold deg_to_rad
      nlinarith
    have htpos' : 0 < Real.tan (b' * deg_to_rad) := lt_trans htpos hmono
    have hnot' : ¬ (|Real.tan (b' * deg_to_rad)| < min_tan_threshold) := by
      rw [abs_of_nonneg (le_of_lt htpos')]
      push_neg
      linarith
    simp only [calculate_turn_performance]
    rw [if_neg hnot, if_neg hnot']
    show v * kts_to_ms * (v * kts_to_ms) / (gravity * Real.tan (b' * deg_to_rad)) / meters_per_nm
      < v * kts_to_ms * (v * kts_to_ms) / (gravity * Real.tan (b * deg_to_rad)) / meters_per_nm
    have hnum : (0:ℝ) < v * kts_to_ms * (v * kts_to_ms) := by positivity
    have h1 : v * kts_to_ms * (v * kts_to_ms) / (gravity * Real.tan (b' * deg_to_rad))
        < v * kts_to_ms * (v * kts_to_ms) / (gravity * Real.tan (b * deg_to_rad)) := by
      apply div_lt_div_of_pos_left hnum (by positivity)
      nlinarith
    exact div_lt_div_of_pos_right h1 hnm

/-- Witness for claim C5: the amended theorem instantiated at TAS 100 kt, bank 45°
(tan = 1 meets the threshold), course change 90°. -/
theorem turn_radius_positive_and_monotone_witness :
    (0:ℝ) < 100 ∧ (0:ℝ) ≤ 45 ∧ (45:ℝ) ≤ 90
    ∧ min_tan_threshold ≤ |Real.tan (45 * deg_to_rad)|
    ∧ 0 < (calculate_turn_performance 100 45 90).radius_nm := by
  have hphi : (45:ℝ) * deg_to_rad = Real.pi / 4 := by
    unfold deg_to_rad
    ring
  have h : min_tan_threshold ≤ |Real.tan ((45:ℝ) * deg_to_rad)| := by
    rw [hphi, Real.tan_pi_div_four]
    norm_num [min_tan_threshold]
  exact ⟨by norm_num, by norm_num, by norm_num, h,
    (turn_radius_positive_and_monotone 100 45 90 (by norm_num) (by norm_num) (by norm_num) h).1⟩

/-- Unfolding helper: adding one more reading after a batch. -/
lemma addAll_append {α : Type} (b : SensorHistoryBuffer α) (xs : List α) (x : α) :
    addAll b (xs ++ [x]) = add_reading (addAll b xs) x := by
  simp [addAll, List.foldl_append]

/-- Ring-buffer invariant: after inserting `xs` into an empty buffer the head
index is the insertion count modulo 20, the logical size is
min (length, 20), and each of the (up to 20) most recent insertions sits in
its slot `i % 20`. -/
lemma addAll_invariant (α : Type) (fill : α) (xs : List α) :
    ((addAll (initBuffer fill) xs).head_index : ℕ) = xs.length % 20
    ∧ (addAll (initBuffer fill) xs).current_size = min xs.length 20
    ∧ ∀ i : ℕ, ∀ h : i < xs.length, xs.length ≤ i + 20 →
        (addAll (initBuffer fill) xs).data ⟨i % 20, Nat.mod_lt i (by norm_num)⟩
          = xs.get ⟨i, h⟩ := by
  induction xs using List.reverseRecOn with
  | nil =>
    refine ⟨rfl, rfl, ?_⟩
    intro i h
    exact absurd h (by simp)
  | append_singleton ys y ih =>
    rw [addAll_append]
    obtain ⟨ih1, ih2, ih3⟩ := ih
    have hlen : (ys ++ [y]).length = ys.length + 1 := by simp
    refine ⟨?_, ?_, ?_⟩
    · show (((addAll (initBuffer fill) ys).head_index + 1 : Fin 20) : ℕ)
        = (ys ++ [y]).length % 20
      rw [Fin.add_def]
      simp only [Fin.val_one, max_ias_history]
      rw [ih1, hlen]
      omega
    · show (if (addAll (initBuffer fill) ys).current_size < max_ias_history
          then (addAll (initBuffer fill) ys).current_size + 1
          else (addAll (initBuffer fill) ys).current_size) = min (ys ++ [y]).length 20
      rw [ih2, hlen]
      simp only [max_ias_history]
      split <;> omega
    · intro i h hge
      rw [hlen] at hge
      have hi20 : i < (ys ++ [y]).length := h
      by_cases hiN : i = ys.length
      · have hidx : (⟨i % 20, Nat.mod_lt i (by norm_num)⟩ : Fin 20)
            = (addAll (initBuffer fill) ys).head_index := by
          apply Fin.ext
          rw [ih1, hiN]
        show (Function.update (addAll (initBuffer fill) ys).data
            (addAll (initBuffer fill) ys).head_index y)
            ⟨i % 20, Nat.mod_lt i (by norm_num)⟩ = (ys ++ [y]).get ⟨i, h⟩
        rw [hidx, Function.update_same, List.get_eq_getElem]
        exact (List.getElem_concat_length ys y i hiN (by simp [hiN])).symm
      · have hiN' : i < ys.length := by
          rw [hlen] at hi20
          omega
        have hne : (⟨i % 20, Nat.mod_lt i (by norm_num)⟩ : Fin 20)
            ≠ (addAll (initBuffer fill) ys).head_index := by
          apply Fin.ne_of_val_ne
          rw [ih1]
          show i % 20 ≠ ys.length % 20
          omega
        show (Function.update (addAll (initBuffer fill) ys).data
            (addAll (initBuffer fill) ys).head_index y)
            ⟨i % 20, Nat.mod_lt i (by norm_num)⟩ = (ys ++ [y]).get ⟨i, h⟩
        rw [Function.update_noteq hne]
        rw [ih3 i hiN' (by omega)]
        exact (List.get_append i hiN').symm

/-- Claim C2: inserting N readings into an initially empty `SensorHistoryBuffer`
gives logical size min N 20 (so N for N ≤ 20 and 20 for N > 20); each of the
20 most recent insertions is stored at slot i % 20, and once at least 20
readings have been inserted every slot holds one of the 20 most recent
values — the buffer contains exactly the 20 most recently inserted values. -/
theorem sensor_history_bounded (α : Type) (fill : α) (xs : List α) :
    get_size (addAll (initBuffer fill) xs) = min xs.length 20
    ∧ (∀ i : ℕ, ∀ h : i < xs.length, xs.length ≤ i + 20 →
        (addAll (initBuffer fill) xs).data ⟨i % 20, Nat.mod_lt i (by norm_num)⟩
          = xs.get ⟨i, h⟩)
    ∧ (20 ≤ xs.length → ∀ j : Fin 20, ∃ i : ℕ, ∃ h : i < xs.length,
        xs.length ≤ i + 20
        ∧ (addAll (initBuffer fill) xs).data j = xs.get ⟨i, h⟩) := by
  obtain ⟨h1, h2, h3⟩ := addAll_invariant α fill xs
  refine ⟨h2, h3, ?_⟩
  intro hlen j
  have hj := j.isLt
  refine ⟨xs.length - 20 + (((j : ℕ) + 20 - xs.length % 20) % 20), ?_, ?_, ?_⟩
  · omega
  · omega
  · have hmod : (xs.length - 20 + (((j : ℕ) + 20 - xs.length % 20) % 20)) % 20
        = (j : ℕ) := by
      omega
    have := h3 (xs.length - 20 + (((j : ℕ) + 20 - xs.length % 20) % 20))
      (by omega) (by omega)
    rw [← this]
    congr 1
    exact (Fin.ext hmod).symm

/-- Witness for claim C2: inserting the 21 readings 0,…,20; the logical size is 20 and
slot 0 holds the 21st value, 20 (the oldest value 0 was overwritten). -/
theorem sensor_history_bounded_witness :
    get_size (addAll (initBuffer (0:ℕ)) (List.range 21)) = 20
    ∧ 20 ≤ (List.range 21).length
    ∧ (addAll (initBuffer (0:ℕ)) (List.range 21)).data
        ⟨20 % 20, Nat.mod_lt 20 (by norm_num)⟩ = 20 := by
  have h := sensor_history_bounded ℕ 0 (List.range 21)
  have hlen : (List.range 21).length = 21 := List.length_range 21
  refine ⟨?_, by rw [hlen]; norm_num, ?_⟩
  · rw [h.1, hlen]
    decide
  · have h2 := h.2.1 20 (by rw [hlen]; norm_num) (by rw [hlen]; norm_num)
    rw [h2]
    simp [List.get_range]

/-- Monotonicity of binomial coefficients along a diagonal of Pascal's
triangle. -/
lemma choose_diag_le (m : ℕ) : ∀ {i j : ℕ}, i ≤ j →
    Nat.choose (m + i) i ≤ Nat.choose (m + j) j := by
  intro i j h
  induction j with
  | zero =>
    have : i = 0 := Nat.le_zero.mp h
    subst this
    exact le_refl _
  | succ j ihj =>
    rcases Nat.lt_succ_iff_lt_or_eq.mp (Nat.lt_succ_of_le h) with hlt | heq
    · have step : Nat.choose (m + j) j ≤ Nat.choose (m + (j + 1)) (j + 1) := by
        have : m + (j + 1) = (m + j) + 1 := by omega
        rw [this, Nat.choose_succ_succ]
        omega
      exact le_trans (ihj (Nat.lt_succ_iff.mp hlt)) step
    · subst heq
      exact le_refl _

/-- The running product-division loop of `binomial_coefficient` computes the
exact binomial coefficient step by step, as long as every intermediate
product stays below 2^64 (guaranteed by `choose n k1 * n < 2^64`): after `j`
iterations the accumulator holds C(n − k1 + j, j), each multiplication stays
below the wrap modulus and each division is exact. -/
lemma binom_loop_exact (n k1 : ℕ) (hk1 : 1 ≤ k1) (hk1n : k1 ≤ n)
    (hbound : Nat.choose n k1 * n < u64_mod) :
    ∀ j, j ≤ k1 →
      (List.range' 1 j).foldl (fun r i => r * (n - k1 + i) % u64_mod / i) 1
        = Nat.choose (n - k1 + j) j := by
  intro j
  induction j with
  | zero =>
    intro _
    simp
  | succ j ihj =>
    intro hj
    have hj' : j ≤ k1 := Nat.le_of_succ_le hj
    rw [List.range'_concat, List.foldl_append, ihj hj']
    simp only [List.foldl_cons, List.foldl_nil]
    have harg : 1 + 1 * j = j + 1 := by omega
    have harith : n - k1 + (j + 1) = (n - k1 + j) + 1 := by omega
    have hmul : Nat.choose (n - k1 + j) j * ((n - k1 + j) + 1)
        = Nat.choose ((n - k1 + j) + 1) (j + 1) * (j + 1) := by
      have h0 := Nat.succ_mul_choose_eq (n - k1 + j) j
      simp only [Nat.succ_eq_add_one] at h0
      rw [mul_comm]
      exact h0
    have hle : Nat.choose ((n - k1 + j) + 1) (j + 1) ≤ Nat.choose n k1 := by
      have h2 := choose_diag_le (n - k1) (show j + 1 ≤ k1 from hj)
      rw [show n - k1 + (j + 1) = (n - k1 + j) + 1 from harith] at h2
      have h3 : n - k1 + k1 = n := by omega
      rwa [h3] at h2
    have hsmall : Nat.choose (n - k1 + j) j * (n - k1 + (j + 1)) < u64_mod := by
      rw [harith, hmul]
      have hjn : j + 1 ≤ n := le_trans hj hk1n
      calc Nat.choose ((n - k1 + j) + 1) (j + 1) * (j + 1)
          ≤ Nat.choose n k1 * n := Nat.mul_le_mul hle hjn
        _ < u64_mod := hbound
    rw [harg, Nat.mod_eq_of_lt hsmall, harith, hmul,
      Nat.mul_div_cancel _ (Nat.succ_pos j)]

/-- Counterexample for claim C7: at n = 63, k = 29 the intermediate running product
overflows 64-bit arithmetic, so the loop does not return the exact binomial
coefficient: the code yields 123415381704736506 while C(63, 29) =
759510004936100355 (which itself fits in 64 bits). -/
theorem binomial_coefficient_counterexample :
    binomial_coefficient 63 29 = 123415381704736506
    ∧ Nat.choose 63 29 = 759510004936100355
    ∧ binomial_coefficient 63 29 ≠ Nat.choose 63 29 := by
  have h1 : binomial_coefficient 63 29 = 123415381704736506 := by decide
  have h2 : Nat.choose 63 29 = 759510004936100355 := by
    rw [Nat.choose_eq_factorial_div_factorial (by norm_num)]
    rfl
  refine ⟨h1, h2, ?_⟩
  rw [h1, h2]
  decide

/-- Branch evaluation: k = 0 always takes the first guard giving 1. -/
lemma binomial_coefficient_zero (n : ℕ) : binomial_coefficient n 0 = 1 := by
  unfold binomial_coefficient
  rw [if_neg (by omega), if_pos (Or.inl rfl)]

/-- Branch evaluation: k = n takes the guard giving 1. -/
lemma binomial_coefficient_self (n : ℕ) : binomial_coefficient n n = 1 := by
  unfold binomial_coefficient
  rw [if_neg (by omega), if_pos (Or.inr rfl)]

/-- Branch evaluation: k = 1 < n returns n directly. -/
lemma binomial_coefficient_one (n : ℕ) (h : 1 < n) : binomial_coefficient n 1 = n := by
  unfold binomial_coefficient
  rw [if_neg (by omega), if_neg (by omega), if_pos rfl]

/-- Branch evaluation: for 2 ≤ k < n the loop runs on min (n − k) k. -/
lemma binomial_coefficient_of_lt (n k : ℕ) (h2 : 2 ≤ k) (hlt : k < n) :
    binomial_coefficient n k = binom_loop n (min (n - k) k) := by
  unfold binomial_coefficient
  rw [if_neg (by omega), if_neg (by omega), if_neg (by omega)]
  congr 1
  split <;> omega

/-- The one-iteration loop returns n (below the 64-bit modulus). -/
lemma binom_loop_one (n : ℕ) (hn1 : 1 ≤ n) (hn : n < u64_mod) : binom_loop n 1 = n := by
  unfold binom_loop
  rw [List.range'_one]
  simp only [List.foldl_cons, List.foldl_nil]
  rw [one_mul, show n - 1 + 1 = n from by omega, Nat.mod_eq_of_lt hn, Nat.div_one]

/-- Claim C7 (amended): over the uint32 input domain, `binomial_coefficient`
satisfies C(n,0) = 1, C(n,k) = 0 for k > n, and the symmetry
C(n,k) = C(n,n−k) for k ≤ n unconditionally; the loop returns the exact
binomial coefficient whenever every intermediate product stays below 2^64
(guaranteed by choose n k · n < 2^64) — without that bound the wrapped
product is truncated by the division and exactness fails. -/
theorem binomial_coefficient_props (n k : ℕ) (hn : n < 2 ^ 32) :
    binomial_coefficient n 0 = 1
    ∧ (n < k → binomial_coefficient n k = 0)
    ∧ (k ≤ n → binomial_coefficient n k = binomial_coefficient n (n - k))
    ∧ (Nat.choose n k * n < u64_mod → binomial_coefficient n k = Nat.choose n k) := by
  have hn64 : n < u64_mod := lt_of_lt_of_le hn (by norm_num [u64_mod])
  refine ⟨binomial_coefficient_zero n, ?_, ?_, ?_⟩
  · intro h
    unfold binomial_coefficient
    rw [if_pos h]
  · intro hkn
    by_cases hk0 : k = 0
    · subst hk0
      rw [Nat.sub_zero, binomial_coefficient_zero, binomial_coefficient_self]
    · by_cases hkn' : k = n
      · subst hkn'
        rw [Nat.sub_self, binomial_coefficient_zero, binomial_coefficient_self]
      · have hlt : k < n := by omega
        by_cases hk1 : k = 1
        · subst hk1
          by_cases hn2 : n = 2
          · subst hn2
            rfl
          · rw [binomial_coefficient_one n (by omega),
              binomial_coefficient_of_lt n (n - 1) (by omega) (by omega),
              show min (n - (n - 1)) (n - 1) = 1 from by omega,
              binom_loop_one n (by omega) hn64]
        · by_cases hnk1 : n - k = 1
          · rw [hnk1, binomial_coefficient_one n (by omega),
              binomial_coefficient_of_lt n k (by omega) hlt,
              show min (n - k) k = 1 from by omega,
              binom_loop_one n (by omega) hn64]
          · rw [binomial_coefficient_of_lt n k (by omega) hlt,
              binomial_coefficient_of_lt n (n - k) (by omega) (by omega),
              show n - (n - k) = k from by omega, Nat.min_comm]
  · intro hbound
    rcases Nat.lt_or_ge n k with hnk | hkn
    · unfold binomial_coefficient
      rw [if_pos hnk, Nat.choose_eq_zero_of_lt hnk]
    · by_cases hk0 : k = 0
      · subst hk0
        rw [binomial_coefficient_zero, Nat.choose_zero_right]
      · by_cases hkn' : k = n
        · subst hkn'
          rw [binomial_coefficient_self, Nat.choose_self]
        · by_cases hk1 : k = 1
          · subst hk1
            rw [binomial_coefficient_one n (by omega), Nat.choose_one_right]
          · have h2 : 2 ≤ k := by omega
            have hlt : k < n := by omega
            rw [binomial_coefficient_of_lt n k h2 hlt]
            have hminle : min (n - k) k ≤ n := by omega
            have hmin1 : 1 ≤ min (n - k) k := by omega
            have hsymm : Nat.choose n (min (n - k) k) = Nat.choose n k := by
              rcases Nat.le_total (n - k) k with hm | hm
              · rw [min_eq_left hm]
                exact Nat.choose_symm hkn
              · rw [min_eq_right hm]
            have hb : Nat.choose n (min (n - k) k) * n < u64_mod := by
              rw [hsymm]
              exact hbound
            have hfold := binom_loop_exact n (min (n - k) k) hmin1 hminle hb
              (min (n - k) k) le_rfl
            unfold binom_loop
            rw [hfold, show n - min (n - k) k + min (n - k) k = n from by omega, hsymm]

/-- Witness for claim C7: the amended theorem instantiated at n = 10, k = 3, where the
bound holds and the helper returns C(10,3) = 120 exactly, with the symmetry
and edge values. -/
theorem binomial_coefficient_props_witness :
    (10:ℕ) < 2 ^ 32
    ∧ Nat.choose 10 3 * 10 < u64_mod
    ∧ binomial_coefficient 10 0 = 1
    ∧ binomial_coefficient 10 3 = binomial_coefficient 10 (10 - 3)
    ∧ binomial_coefficient 10 3 = Nat.choose 10 3 := by
  have h := binomial_coefficient_props 10 3 (by norm_num)
  have hb : Nat.choose 10 3 * 10 < u64_mod := by decide
  exact ⟨by norm_num, hb, h.1, h.2.2.1 (by norm_num), h.2.2.2 hb⟩

end XplaneMfd
